import Mathlib

/-!
Shallow embedding of the aw-downloader backend (TypeScript source) in Lean 4,
together with theorems settling the frozen claims about it.

Each definition mirrors one function of the source; doc comments name the
source file and symbol it embeds.  Wall-clock values (`Date.now()`,
`DateTime.now()`) are passed in as explicit `Nat` parameters; HTTP traffic is
modelled by explicit response traces; the database rows a function touches are
passed in as explicit finite maps.
-/

namespace AwDownloader

/-! ### Task scheduler: `CronHelper.minutesToCron` (cron_helper, src/unnamed/part_007) -/

/-- Field of a five-field cron expression, as produced by `minutesToCron`:
the wildcard `*`, a step `*/n`, or a fixed value `k`. -/
inductive CronField where
  | any : CronField
  | step (n : Nat) : CronField
  | exact (k : Nat) : CronField
deriving DecidableEq, Repr

/-- A five-field cron expression `minute hour dayOfMonth month dayOfWeek`. -/
structure CronExpr where
  minute : CronField
  hour : CronField
  dayOfMonth : CronField
  month : CronField
  dayOfWeek : CronField
deriving DecidableEq, Repr

/-- Embeds `CronHelper.minutesToCron` (src/unnamed/part_007, lines 112-125).
The returned strings are represented as structured cron expressions:
the string fields are read left to right as minute, hour, day-of-month,
month, day-of-week. -/
def minutesToCron (minutes : Nat) : CronExpr :=
  if minutes < 60 then
    { minute := .step minutes, hour := .any, dayOfMonth := .any,
      month := .any, dayOfWeek := .any }
  else
    let hours := minutes / 60
    if hours < 24 then
      { minute := .exact 0, hour := .step hours, dayOfMonth := .any,
        month := .any, dayOfWeek := .any }
    else
      let days := hours / 24
      if days < 7 then
        { minute := .exact 0, hour := .exact 0, dayOfMonth := .step days,
          month := .any, dayOfWeek := .any }
      else
        { minute := .exact 0, hour := .exact 0, dayOfMonth := .exact 2,
          month := .any, dayOfWeek := .any }

/-- Standard cron semantics of one field against a concrete value; `lo` is the
lower bound of the field's range (0 for minute/hour/day-of-week, 1 for
day-of-month/month), from which a `*/n` step starts. -/
def CronField.fieldFires (f : CronField) (lo v : Nat) : Bool :=
  match f with
  | .any => true
  | .step n => (v - lo) % n == 0
  | .exact k => v == k

/-- Standard cron semantics: the expression fires at a given
minute/hour/day-of-month/month/day-of-week instant. -/
def CronExpr.fires (e : CronExpr) (minute hour dom mon dow : Nat) : Bool :=
  e.minute.fieldFires 0 minute && e.hour.fieldFires 0 hour &&
  e.dayOfMonth.fieldFires 1 dom && e.month.fieldFires 1 mon &&
  e.dayOfWeek.fieldFires 0 dow

/-! ### Task runner: `BaseTask.run` and `CronHelper.executeTaskNow`
(src/unnamed/part_014 lines 73-100, src/unnamed/part_007 lines 219-229) -/

inductive TaskRunStatus where
  | idle | running | success | error
deriving DecidableEq, Repr

/-- In-memory status of one task (`BaseTask.taskStatus`); `begunRuns` counts
how many times `run()` has been entered, so that starting a second concurrent
execution is observable.  `nextRunAt` bookkeeping is time-arithmetic on wall
clocks and is not tracked. -/
structure TaskState where
  status : TaskRunStatus
  lastRunAt : Option Nat
  lastError : Option String
  begunRuns : Nat
deriving DecidableEq, Repr

/-- Embeds the entry of `BaseTask.run` (src/unnamed/part_014 lines 76-80):
the status is set to `running` and `lastRunAt` to now, unconditionally —
`run` contains no check of the current status. -/
def runBegin (now : Nat) (t : TaskState) : TaskState :=
  { t with status := .running, lastRunAt := some now,
           begunRuns := t.begunRuns + 1 }

/-- Embeds the exit of `BaseTask.run` (src/unnamed/part_014 lines 84-99):
`none` outcome is a normal return of `execute()`, `some msg` a thrown error. -/
def runEnd (outcome : Option String) (t : TaskState) : TaskState :=
  match outcome with
  | none => { t with status := .success, lastError := none }
  | some msg => { t with status := .error, lastError := some msg }

/-- Embeds `CronHelper.executeTaskNow` (src/unnamed/part_007 lines 219-229):
looks the task up in the in-memory map, returns `false` if absent, otherwise
fires `task.run()` asynchronously (without awaiting) and returns `true`.
The model records the begin of that run; the code performs no check of
`task.status` before firing. -/
def executeTaskNow (now : Nat) (tasks : List (String × TaskState)) (id : String) :
    Bool × List (String × TaskState) :=
  match tasks.find? (fun p => p.1 == id) with
  | none => (false, tasks)
  | some _ =>
      (true, tasks.map (fun p => if p.1 == id then (p.1, runBegin now p.2) else p))

/-! ### Rate-limited anime-DB clients: retry on 429
(`AniListService.makeGraphQLRequest`, src/unnamed/part_010 lines 75-136;
`MyAnimeListService._performRequest`, src/unnamed/part_012 lines 490-522) -/

/-- One HTTP answer of the remote server to one request attempt. -/
inductive HttpAnswer where
  | success (body : String)
  | rateLimited (retryAfterSecs : Option Nat)
  | httpError (code : Nat)
deriving DecidableEq, Repr

/-- Outcome of a client call: a body, a surfaced (re-thrown) HTTP error, or
the end of the modelled server trace while the client still wanted to retry. -/
inductive RequestOutcome where
  | ok (body : String)
  | thrown (code : Nat)
  | traceExhausted
deriving DecidableEq, Repr

/-- Embeds `AniListService.makeGraphQLRequest` (src/unnamed/part_010 lines
75-136) against an explicit trace of server answers; returns the number of
requests issued, the list of delays slept (seconds, `Retry-After` or the
60-second default), and the final outcome.  On a 429 the code sleeps and
recursively calls itself with no retry counter, so it consumes answers until
a non-429 arrives or the trace ends. -/
def makeGraphQLRequest : List HttpAnswer → Nat × List Nat × RequestOutcome
  | [] => (0, [], .traceExhausted)
  | .success body :: _ => (1, [], .ok body)
  | .httpError code :: _ => (1, [], .thrown code)
  | .rateLimited ra :: rest =>
      let r := makeGraphQLRequest rest
      (r.1 + 1, ra.getD 60 :: r.2.1, r.2.2)

/-- Embeds `MyAnimeListService._performRequest` (src/unnamed/part_012 lines
490-522): identical recursion, but the sleep before a retry is a fixed
10 seconds — the `Retry-After` header is not read. -/
def malPerformRequest : List HttpAnswer → Nat × List Nat × RequestOutcome
  | [] => (0, [], .traceExhausted)
  | .success body :: _ => (1, [], .ok body)
  | .httpError code :: _ => (1, [], .thrown code)
  | .rateLimited _ :: rest =>
      let r := malPerformRequest rest
      (r.1 + 1, 10 :: r.2.1, r.2.2)

/-! ### Download worker byte ranges: `DownloadEpisodesTask.execute`
(src/backend/app/tasks/download_episodes_task.ts, lines 90-103) -/

/-- Embeds the chunk computation of `DownloadEpisodesTask.execute`:
`chunkSize = Math.ceil(fileSize / maxWorkers)` and for each
`i < maxWorkers` the inclusive byte range
`[i*chunkSize, min(i*chunkSize + chunkSize - 1, fileSize - 1)]`. -/
def chunkRanges (fileSize maxWorkers : Nat) : List (Nat × Nat) :=
  let chunkSize := (fileSize + maxWorkers - 1) / maxWorkers
  (List.range maxWorkers).map fun i =>
    (i * chunkSize, min (i * chunkSize + chunkSize - 1) (fileSize - 1))

/-- A byte offset lies in an inclusive range. -/
def inRange (r : Nat × Nat) (k : Nat) : Prop := r.1 ≤ k ∧ k ≤ r.2

/-! ### Season model, `downloadUrls` column
(src/backend/app/models/season.ts, lines 31-50) -/

/-- Parse tree of a JSON value.  A stored TEXT cell that parses is identified
with its parse tree; `consume` only distinguishes arrays from non-arrays, so
JSON objects need no own constructor and fall under `other`. -/
inductive JsonVal where
  | null : JsonVal
  | bool (b : Bool) : JsonVal
  | num (n : Int) : JsonVal
  | str (s : String) : JsonVal
  | arr (elems : List JsonVal) : JsonVal
  | other : JsonVal

/-- A TEXT database cell: either valid JSON (its parse tree) or malformed text
on which `JSON.parse` throws.  The raw strings the source compares against
(`'null'`, `'[]'`, and the falsy `''`) correspond to `.json .null`,
`.json (.arr [])` and `.malformed ""`; the source treats them the same way the
parse path would, so identifying a parseable cell with its tree loses no
behaviour. -/
inductive StoredText where
  | json (v : JsonVal)
  | malformed (raw : String)

/-- Embeds the `prepare` callback of the `downloadUrls` column
(src/backend/app/models/season.ts lines 32-37): `null` or an empty array is
stored as SQL NULL, any other array as its JSON encoding. -/
def prepareDownloadUrls (value : Option (List String)) : Option StoredText :=
  match value with
  | none => none
  | some l => if l.isEmpty then none else some (.json (.arr (l.map .str)))

/-- Embeds the `consume` callback of the `downloadUrls` column
(src/backend/app/models/season.ts lines 38-48): NULL, the strings `'null'`
and `'[]'`, unparseable JSON, non-arrays and empty arrays all yield `null`;
a parsed non-empty array is returned as is. -/
def consumeDownloadUrls (value : Option StoredText) : Option (List JsonVal) :=
  match value with
  | none => none
  | some (.malformed _) => none
  | some (.json v) =>
      match v with
      | .arr elems => if elems.length > 0 then some elems else none
      | _ => none

/-! ### Download queue (src/backend/app/services/download_queue.ts) -/

inductive ItemStatus where
  | pending | downloading | completed | failed
deriving DecidableEq, Repr

/-- One queue item (`QueueItem` of download_queue.ts).  The wall-clock fields
`addedAt`/`startedAt`/`completedAt` and the transient `downloadSpeed` carry no
claim-relevant information and are not tracked. -/
structure QueueItem where
  id : String
  seriesId : Nat
  seasonId : Nat
  episodeId : Nat
  seriesTitle : String
  seasonNumber : Nat
  episodeNumber : Nat
  episodeTitle : String
  downloadUrl : String
  status : ItemStatus
  progress : Nat
  error : Option String
deriving DecidableEq, Repr

/-- Parameters of `addToQueue` (the item minus id/status/progress/addedAt). -/
structure EnqueueParams where
  seriesId : Nat
  seasonId : Nat
  episodeId : Nat
  seriesTitle : String
  seasonNumber : Nat
  episodeNumber : Nat
  episodeTitle : String
  downloadUrl : String
deriving DecidableEq, Repr

/-- State of the `DownloadQueue` singleton: the waiting list `queue`, the
`activeDownloads` map (modelled as a list keyed by `id`), and the shared
cancel set `DownloadEpisodesTask.cancelledDownloads`. -/
structure QueueState where
  queue : List QueueItem
  active : List QueueItem
  cancelled : List String
deriving DecidableEq, Repr

/-- Observable queue events: the emitter events of download_queue.ts plus the
two side effects of `cancelDownload` (the cancel signal to the task and the
best-effort temp-directory removal, whose success flag is `ok`). -/
inductive QueueEvent where
  | itemAdded (it : QueueItem)
  | itemRemoved (it : QueueItem)
  | itemStarted (it : QueueItem)
  | itemCancelled (it : QueueItem)
  | itemCompleted (it : QueueItem)
  | itemFailed (it : QueueItem)
  | signalCancel (id : String)
  | removeTempDir (id : String) (ok : Bool)
deriving DecidableEq, Repr

/-- Id generation of `addToQueue`: `seriesId-seasonId-episodeId-Date.now()`. -/
def mkItemId (seriesId seasonId episodeId now : Nat) : String :=
  toString seriesId ++ "-" ++ toString seasonId ++ "-" ++ toString episodeId
    ++ "-" ++ toString now

/-- The `while` loop of `processQueue` (download_queue.ts lines 235-250):
while a downloading slot is free and the waiting queue non-empty, shift the
head, mark it `downloading` and move it to `activeDownloads`; starting the
transfer itself is launch-and-forget.  Returns (active, remaining queue,
events). -/
def processQueueLoop (maxConc : Nat) :
    List QueueItem → List QueueItem → List QueueItem × List QueueItem × List QueueEvent
  | active, [] => (active, [], [])
  | active, it :: rest =>
      if active.length < maxConc then
        let started := { it with status := ItemStatus.downloading }
        let r := processQueueLoop maxConc (active ++ [started]) rest
        (r.1, r.2.1, .itemStarted started :: r.2.2)
      else
        (active, it :: rest, [])

/-- Embeds `DownloadQueue.processQueue` (download_queue.ts lines 225-254);
`maxConc` is the `concurrent_downloads` config value read at entry. -/
def processQueue (maxConc : Nat) (s : QueueState) : QueueState × List QueueEvent :=
  let r := processQueueLoop maxConc s.active s.queue
  ({ s with active := r.1, queue := r.2.1 }, r.2.2)

/-- Embeds `DownloadQueue.addToQueue` (download_queue.ts lines 46-77).
The duplicate check scans `this.queue` only — the `activeDownloads` map is
not consulted, so the `q.status === 'downloading'` disjunct never holds
(items are shifted out of `queue` before being marked downloading).
On success the new item is appended and `processQueue` runs. -/
def addToQueue (now maxConc : Nat) (p : EnqueueParams) (s : QueueState) :
    Except String (String × QueueState × List QueueEvent) :=
  let dup := s.queue.any fun q =>
    q.seriesId == p.seriesId && q.seasonId == p.seasonId &&
    q.episodeId == p.episodeId &&
    (q.status == ItemStatus.pending || q.status == ItemStatus.downloading)
  if dup then
    .error "Item already in queue"
  else
    let it : QueueItem :=
      { id := mkItemId p.seriesId p.seasonId p.episodeId now,
        seriesId := p.seriesId, seasonId := p.seasonId,
        episodeId := p.episodeId, seriesTitle := p.seriesTitle,
        seasonNumber := p.seasonNumber, episodeNumber := p.episodeNumber,
        episodeTitle := p.episodeTitle, downloadUrl := p.downloadUrl,
        status := .pending, progress := 0, error := none }
    let s1 := { s with queue := s.queue ++ [it] }
    let r := processQueue maxConc s1
    .ok (it.id, r.1, .itemAdded it :: r.2)

/-- Embeds `DownloadQueue.removeFromQueue` (download_queue.ts lines 82-100):
only a `pending` item of the waiting queue can be removed. -/
def removeFromQueue (id : String) (s : QueueState) :
    Bool × QueueState × List QueueEvent :=
  match s.queue.find? (fun it => it.id == id) with
  | none => (false, s, [])
  | some it =>
      if it.status == ItemStatus.pending then
        (true, { s with queue := s.queue.filter (fun q => q.id != id) },
         [.itemRemoved it])
      else
        (false, s, [])

/-- Embeds `DownloadQueue.cancelDownload` (download_queue.ts lines 105-145).
For an id in `activeDownloads`: signal the cancel set, mark the item `failed`
with the literal error "Download cancelled by user", drop it from
`activeDownloads`, remove the temporary directory best-effort (`rmOk` is the
outcome of `fs.rm`; its failure is only logged) and re-run `processQueue`.
Otherwise fall back to `removeFromQueue`. -/
def cancelDownload (maxConc : Nat) (rmOk : Bool) (id : String) (s : QueueState) :
    Bool × QueueState × List QueueEvent :=
  match s.active.find? (fun it => it.id == id) with
  | some it =>
      let upd := { it with status := ItemStatus.failed,
                           error := some "Download cancelled by user" }
      let mid : QueueState :=
        { s with active := s.active.filter (fun q => q.id != id),
                 cancelled := id :: s.cancelled }
      let r := processQueue maxConc mid
      (true, r.1,
       .signalCancel id :: .itemCancelled upd :: .removeTempDir id rmOk :: r.2)
  | none => removeFromQueue id s

/-- Embeds `DownloadQueue.completeItem` (download_queue.ts lines 189-202). -/
def completeItem (maxConc : Nat) (id : String) (s : QueueState) :
    QueueState × List QueueEvent :=
  match s.active.find? (fun it => it.id == id) with
  | some it =>
      let upd := { it with status := ItemStatus.completed, progress := 100 }
      let mid : QueueState :=
        { s with active := s.active.filter (fun q => q.id != id) }
      let r := processQueue maxConc mid
      (r.1, .itemCompleted upd :: r.2)
  | none => (s, [])

/-- Embeds `DownloadQueue.failItem` (download_queue.ts lines 207-220). -/
def failItem (maxConc : Nat) (id : String) (msg : String) (s : QueueState) :
    QueueState × List QueueEvent :=
  match s.active.find? (fun it => it.id == id) with
  | some it =>
      let upd := { it with status := ItemStatus.failed, error := some msg }
      let mid : QueueState :=
        { s with active := s.active.filter (fun q => q.id != id) }
      let r := processQueue maxConc mid
      (r.1, .itemFailed upd :: r.2)
  | none => (s, [])

/-- Count of non-terminal (pending or downloading) items for one
(seriesId, seasonId, episodeId) triple across the whole queue state
(`getAllItems` = active ++ queue). -/
def nonTerminalCount (s : QueueState) (seriesId seasonId episodeId : Nat) : Nat :=
  ((s.active ++ s.queue).filter fun it =>
    it.seriesId == seriesId && it.seasonId == seasonId &&
    it.episodeId == episodeId &&
    (it.status == ItemStatus.pending || it.status == ItemStatus.downloading)).length

/-! ### Multi-part episode renumbering:
`AnimeworldService.getEpisodesFromMultiplePages`
(src/backend/app/services/animeworld_service.ts, lines 297-338) -/

/-- Episode map `Record<number, string>` of one source-site page, as an
association list (a JS object cannot hold duplicate keys; theorems carry the
corresponding hypotheses). -/
abbrev EpisodeMap := List (Nat × String)

/-- Read `m[k]` of a JS record. -/
def epGet (m : EpisodeMap) (k : Nat) : Option String :=
  (m.find? (fun p => p.1 == k)).map (·.2)

/-- Write `m[k] = v` of a JS record: overwrite in place, else append. -/
def epSet (m : EpisodeMap) (k : Nat) (v : String) : EpisodeMap :=
  if m.any (fun p => p.1 == k) then
    m.map (fun p => if p.1 == k then (k, v) else p)
  else m ++ [(k, v)]

/-- The `Object.keys(episodes).map(Number).sort((a, b) => a - b)` step. -/
def sortedKeys (m : EpisodeMap) : List Nat :=
  (m.map Prod.fst).mergeSort (fun a b => decide (a ≤ b))

/-- The `Math.max(...episodeNumbers)` step, used on non-empty key lists only
(guarded by `episodeNumbers.length > 0`; keys are non-negative). -/
def listMax (l : List Nat) : Nat := l.foldl max 0

/-- Loop body of `getEpisodesFromMultiplePages`: for each part, insert every
episode under `episodeOffset + episodeNum`, then advance the offset by the
part's maximal episode number (offset unchanged for an empty part). -/
def multiPartGo : List EpisodeMap → EpisodeMap → Nat → EpisodeMap
  | [], acc, _ => acc
  | part :: rest, acc, off =>
      let keys := sortedKeys part
      let acc1 := keys.foldl (fun a n => epSet a (off + n) ((epGet part n).getD "")) acc
      let off1 := if keys.isEmpty then off else off + listMax keys
      multiPartGo rest acc1 off1

/-- Embeds `AnimeworldService.getEpisodesFromMultiplePages`
(animeworld_service.ts lines 297-338).  `parts` are the episode maps of the
pages that were fetched successfully, in identifier order: a part whose page
fetch throws is skipped whole by the `catch` (no insertions, offset
unchanged), which is the same as its absence from this list. -/
def getEpisodesFromMultiplePages (parts : List EpisodeMap) : EpisodeMap :=
  multiPartGo parts [] 0

/-! ### Calendar dates (Luxon `DateTime` arithmetic used by the matcher) -/

/-- A calendar date (proleptic Gregorian, year ≥ 1 in all uses).  The ISO-8601
strings the source stores (`startDateUtc`, `endDateUtc`, Sonarr air dates)
are represented already parsed. -/
structure CalDate where
  year : Nat
  month : Nat
  day : Nat
deriving DecidableEq, Repr

def isLeapYear (y : Nat) : Bool :=
  (y % 4 == 0 && y % 100 != 0) || y % 400 == 0

def daysInMonth (y m : Nat) : Nat :=
  if m == 2 then (if isLeapYear y then 29 else 28)
  else if m == 4 || m == 6 || m == 9 || m == 11 then 30
  else 31

/-- Day number of a date (days since 0000-03-01, shifted-era civil-from-days
algorithm, valid for year ≥ 1).  Luxon `DateTime` comparisons between dates
are comparisons of these day numbers. -/
def daysFromCivil (d : CalDate) : Nat :=
  let y := if d.month ≤ 2 then d.year - 1 else d.year
  let era := y / 400
  let yoe := y % 400
  let mp := (d.month + 9) % 12
  let doy := (153 * mp + 2) / 5 + (d.day - 1)
  let doe := yoe * 365 + yoe / 4 - yoe / 100 + doy
  era * 146097 + doe

/-- Luxon month subtraction: decrement the month, clamping the day to the
target month's length. -/
def minusOneMonth (d : CalDate) : CalDate :=
  if d.month == 1 then ⟨d.year - 1, 12, min d.day 31⟩
  else ⟨d.year, d.month - 1, min d.day (daysInMonth d.year (d.month - 1))⟩

/-- Luxon month addition: increment the month, clamping the day to the target
month's length. -/
def plusOneMonth (d : CalDate) : CalDate :=
  if d.month == 12 then ⟨d.year + 1, 1, min d.day 31⟩
  else ⟨d.year, d.month + 1, min d.day (daysInMonth d.year (d.month + 1))⟩

/-- Day number of `startDate.minus({months: 1, days: 10})` (Luxon applies the
month first, then the days). -/
def lowerMarginRD (ws : CalDate) : Nat := daysFromCivil (minusOneMonth ws) - 10

/-- Day number of `endDate.plus({months: 1, days: 10})`. -/
def upperMarginRD (we : CalDate) : Nat := daysFromCivil (plusOneMonth we) + 10

/-! ### Season matcher: `MetadataSyncService.parseAnimeWorldResults`
(src/unnamed/part_011, lines 570-665) -/

/-- Source-site language flag (`FilterDub`): 0 = sub, 1 = dub. -/
inductive FilterDub where
  | sub | dub
deriving DecidableEq, Repr

/-- One filtered search result of `AnimeworldService.searchAnimeWithFilter`. -/
structure FilterSearchResult where
  title : String
  jtitle : String
  identifier : String
  dub : FilterDub
  malId : Option Nat
  anilistId : Option Nat
deriving DecidableEq, Repr

/-- AniList media record as returned by `AniListService.getMediaById`
(src/unnamed/part_010).  The interface has NO `airing`/`aired` fields: the
matcher's reads of them yield `undefined`, i.e. falsy. -/
structure AniListRec where
  id : Nat
  titleRomaji : Option String
  titleEnglish : Option String
  startDateUtc : Option CalDate
  endDateUtc : Option CalDate
deriving DecidableEq, Repr

/-- MyAnimeList record as returned by `MyAnimeListService.getMediaById`
(src/unnamed/part_012), which does populate `airing` and `aired`. -/
structure MalRec where
  id : Nat
  title : Option String
  startDateUtc : Option CalDate
  endDateUtc : Option CalDate
  airing : Bool
  aired : Bool
deriving DecidableEq, Repr

/-- A surviving season match (`SeasonMatch` of src/unnamed/part_011). -/
structure SeasonMatch where
  animeworldTitle : String
  animeworldIdentifier : String
  anilistId : Option Nat
  anilistTitle : String
  anilistStartDate : Option CalDate
  malId : Option Nat
  malTitle : String
  malStartDate : Option CalDate
  sonarrStartDate : CalDate
  sonarrEndDate : CalDate
deriving DecidableEq, Repr

/-- JS `a || b` on an optional string (both `undefined` and `""` are falsy). -/
def jsStrOr (a : Option String) (b : String) : String :=
  match a with
  | some s => if s == "" then b else s
  | none => b

/-- The in-place `endDateUtc = startDateUtc` patch: when the record is aired
and has no end date, the start date becomes the effective end date. -/
def effectiveEnd (startD endD : Option CalDate) (aired : Bool) : Option CalDate :=
  if aired && endD.isNone then startD else endD

/-- The external-DB date validation block of `parseAnimeWorldResults`
(src/unnamed/part_011 lines 613-649, identical for both providers): reject
when the start date is absent; when the record is not airing and has no end
date; when the start date is before `lowRD`; or when the effective end date
is present and after `highRD`.  No upper bound is placed on the start date
itself. -/
def dateCheck (lowRD highRD : Nat) (startD endD : Option CalDate)
    (airing aired : Bool) : Bool :=
  match startD with
  | none => false
  | some st =>
      if !airing && endD.isNone then false
      else
        if daysFromCivil st < lowRD then false
        else
          match effectiveEnd (some st) endD aired with
          | some en => decide (daysFromCivil en ≤ highRD)
          | none => true

/-- Builds the pushed `SeasonMatch` record (src/unnamed/part_011 lines
651-662); `a`/`m` is the validated AniList/MyAnimeList record if any. -/
def mkSeasonMatch (r : FilterSearchResult) (a : Option AniListRec)
    (m : Option MalRec) (ws we : CalDate) : SeasonMatch :=
  { animeworldTitle := r.title,
    animeworldIdentifier := r.identifier,
    anilistId := a.map (·.id),
    anilistTitle := jsStrOr (a.bind (·.titleRomaji))
                      (jsStrOr (a.bind (·.titleEnglish)) ""),
    anilistStartDate := a.bind (·.startDateUtc),
    malId := m.map (·.id),
    malTitle := jsStrOr (m.bind (·.title)) "",
    malStartDate := m.bind (·.startDateUtc),
    sonarrStartDate := ws,
    sonarrEndDate := we }

/-- One iteration of the `parseAnimeWorldResults` loop for result `r`
(src/unnamed/part_011 lines 583-663): the language policy, the external-DB
lookups (AniList preferred by `anilistId`, else MyAnimeList by `malId`,
modelled by the lookup functions `aniDb`/`malDb`) and the date validation;
`some` is the pushed match, `none` a `continue`.  `allResults` is the whole
input list, over which the dub-fallback check searches. -/
def matchResult (aniDb : Nat → Option AniListRec) (malDb : Nat → Option MalRec)
    (ws we : CalDate) (pref : String) (allResults : List FilterSearchResult)
    (r : FilterSearchResult) : Option SeasonMatch :=
  let lowRD := lowerMarginRD ws
  let highRD := upperMarginRD we
  if pref == "dub" && r.dub != FilterDub.dub then none
  else if pref == "sub" && r.dub != FilterDub.sub then none
  else if pref == "dub_fallback_sub" && r.dub == FilterDub.sub &&
      allResults.any (fun q => q.title == r.title && q.dub == FilterDub.dub) then
    none
  else if r.anilistId.isNone && r.malId.isNone then none
  else
    let anilistResult := r.anilistId.bind aniDb
    let malResult := if anilistResult.isNone then r.malId.bind malDb else none
    if anilistResult.isNone && malResult.isNone then none
    else
      match anilistResult with
      | some a =>
          if dateCheck lowRD highRD a.startDateUtc a.endDateUtc false false then
            some (mkSeasonMatch r (some a) none ws we)
          else none
      | none =>
          match malResult with
          | some mrec =>
              if dateCheck lowRD highRD mrec.startDateUtc mrec.endDateUtc
                  mrec.airing mrec.aired then
                some (mkSeasonMatch r none (some mrec) ws we)
              else none
          | none => none

/-- Embeds `MetadataSyncService.parseAnimeWorldResults` (src/unnamed/part_011
lines 570-665): the loop keeps, in order, the matches of the results that
pass the language policy and the date validation.  `ws`/`we` are the non-null
`airDateInfo.startDate`/`endDate` (the caller returns early when either is
null). -/
def parseAnimeWorldResults (aniDb : Nat → Option AniListRec)
    (malDb : Nat → Option MalRec) (ws we : CalDate) (pref : String)
    (results : List FilterSearchResult) : List SeasonMatch :=
  results.filterMap (matchResult aniDb malDb ws we pref results)

/-- Predicate used to state the amended air-date-window claim (C3): the
external-DB record that validated `r` (AniList when the `anilistId` lookup
succeeded, else MyAnimeList) has a present start date no earlier than
`windowStart` minus one month and 10 days, and its effective end date, when
present, no later than `windowEnd` plus one month and 10 days; the surviving
match `m` carries that start date.  The margins are one calendar month plus
10 days — between 38 and 41 days depending on the month, not exactly 40. -/
def validatedWithinMargins (aniDb : Nat → Option AniListRec)
    (malDb : Nat → Option MalRec) (ws we : CalDate)
    (r : FilterSearchResult) (m : SeasonMatch) : Prop :=
  (∃ i a, r.anilistId = some i ∧ aniDb i = some a ∧
      m.anilistStartDate = a.startDateUtc ∧
      ∃ st, a.startDateUtc = some st ∧
        lowerMarginRD ws ≤ daysFromCivil st ∧
        ∀ en, effectiveEnd a.startDateUtc a.endDateUtc false = some en →
          daysFromCivil en ≤ upperMarginRD we) ∨
  (∃ i b, r.malId = some i ∧ malDb i = some b ∧
      r.anilistId.bind aniDb = none ∧
      m.malStartDate = b.startDateUtc ∧
      ∃ st, b.startDateUtc = some st ∧
        lowerMarginRD ws ≤ daysFromCivil st ∧
        ∀ en, effectiveEnd b.startDateUtc b.endDateUtc b.aired = some en →
          daysFromCivil en ≤ upperMarginRD we)

/-! ### Concrete fixtures used by the theorems below -/

/-- Enqueue parameters used by the C1 failing trace. -/
def c1Params : EnqueueParams :=
  { seriesId := 1, seasonId := 2, episodeId := 3, seriesTitle := "A",
    seasonNumber := 1, episodeNumber := 3, episodeTitle := "E",
    downloadUrl := "u" }

/-- The first enqueued item after `processQueue` moved it to
`activeDownloads`. -/
def c1ItemDownloading : QueueItem :=
  { id := "1-2-3-100", seriesId := 1, seasonId := 2, episodeId := 3,
    seriesTitle := "A", seasonNumber := 1, episodeNumber := 3,
    episodeTitle := "E", downloadUrl := "u",
    status := .downloading, progress := 0, error := none }

/-- The duplicate item accepted while the first one is downloading. -/
def c1ItemPending2 : QueueItem :=
  { c1ItemDownloading with id := "1-2-3-200", status := .pending }

/-- Concrete active item for the C9 witness. -/
def c9Item : QueueItem :=
  { id := "7-8-9-50", seriesId := 7, seasonId := 8, episodeId := 9,
    seriesTitle := "B", seasonNumber := 1, episodeNumber := 2,
    episodeTitle := "T", downloadUrl := "u",
    status := .downloading, progress := 40, error := none }

/-- MyAnimeList record for the C3 counterexample, exactly as
`MyAnimeListService.getMediaById` produces it from a Jikan answer with
`aired.from = aired.to = 2025-03-07` and status `Finished Airing`: the
client sets `endDateUtc = aired.to || aired.from` (src/unnamed/part_012
line 535), so both dates are present and equal. -/
def c3MalRec : MalRec :=
  { id := 1, title := some "X", startDateUtc := some ⟨2025, 3, 7⟩,
    endDateUtc := some ⟨2025, 3, 7⟩, airing := false, aired := true }

/-- Source-site result for the C3 counterexample: a subbed result carrying
only a MyAnimeList id. -/
def c3Result : FilterSearchResult :=
  { title := "x", jtitle := "", identifier := "x.aa", dub := .sub,
    malId := some 1, anilistId := none }

/-- Subbed and dubbed results with the same title, for the C4 witness. -/
def c4SubResult : FilterSearchResult :=
  { title := "my-show", jtitle := "", identifier := "my-show.bb",
    dub := .sub, malId := some 1, anilistId := none }

def c4DubResult : FilterSearchResult :=
  { title := "my-show", jtitle := "", identifier := "my-show.aa",
    dub := .dub, malId := some 1, anilistId := none }

/-! ## Theorems -/

/-! ### C5 — byte-range partition helpers -/

lemma div_eq_of_inRange (c i k : Nat) (hc : 0 < c)
    (h1 : i * c ≤ k) (h2 : k ≤ i * c + c - 1) : k / c = i := by
  have hle : i ≤ k / c := (Nat.le_div_iff_mul_le hc).mpr h1
  have hlt : k / c < i + 1 := by
    refine (Nat.div_lt_iff_lt_mul hc).mpr ?_
    have hk : k < i * c + c := by omega
    calc k < i * c + c := hk
      _ = (i + 1) * c := by ring
  omega

lemma self_div_inRange (c k : Nat) (hc : 0 < c) :
    k / c * c ≤ k ∧ k ≤ k / c * c + c - 1 := by
  refine ⟨Nat.div_mul_le_self k c, ?_⟩
  have h1 : k / c * c + k % c = k := by
    rw [Nat.mul_comm]; exact Nat.div_add_mod k c
  have h2 : k % c < c := Nat.mod_lt k hc
  omega

/-- C5: for every file size s > 0 and worker count w ≥ 1, the download task
computes exactly w byte ranges; range i is
`[i·⌈s/w⌉, min((i+1)·⌈s/w⌉ − 1, s − 1)]`; the ranges are pairwise disjoint
and their union is exactly the byte interval [0, s). -/
theorem chunkRanges_partition (s w : Nat) (hs : 0 < s) (hw : 0 < w) :
    (chunkRanges s w).length = w ∧
    (∀ i, i < w →
      (chunkRanges s w)[i]? =
        some (i * ((s + w - 1) / w),
          min (i * ((s + w - 1) / w) + (s + w - 1) / w - 1) (s - 1))) ∧
    (∀ i j k : Nat,
      (∃ ri, (chunkRanges s w)[i]? = some ri ∧ inRange ri k) →
      (∃ rj, (chunkRanges s w)[j]? = some rj ∧ inRange rj k) → i = j) ∧
    (∀ k, k < s ↔ ∃ (i : Nat) (r : Nat × Nat), (chunkRanges s w)[i]? = some r ∧ inRange r k) := by
  have hc : 0 < (s + w - 1) / w := Nat.div_pos (by omega) hw
  have hsc : s ≤ (s + w - 1) / w * w := by
    have h1 : w * ((s + w - 1) / w) + (s + w - 1) % w = s + w - 1 :=
      Nat.div_add_mod _ _
    have h2 : (s + w - 1) % w < w := Nat.mod_lt _ hw
    have h3 : w * ((s + w - 1) / w) = (s + w - 1) / w * w := Nat.mul_comm _ _
    omega
  have hget : ∀ i, i < w →
      (chunkRanges s w)[i]? =
        some (i * ((s + w - 1) / w),
          min (i * ((s + w - 1) / w) + (s + w - 1) / w - 1) (s - 1)) := by
    intro i hi
    simp [chunkRanges, List.getElem?_map, List.getElem?_range hi]
  have hchar : ∀ i k, (∃ r, (chunkRanges s w)[i]? = some r ∧ inRange r k) ↔
      (i < w ∧ i * ((s + w - 1) / w) ≤ k ∧
        k ≤ min (i * ((s + w - 1) / w) + (s + w - 1) / w - 1) (s - 1)) := by
    intro i k
    constructor
    · rintro ⟨r, hr, hk1, hk2⟩
      have hi : i < w := by
        by_contra hge
        have : (chunkRanges s w)[i]? = none := by
          refine List.getElem?_eq_none ?_
          simp [chunkRanges]
          omega
        rw [this] at hr; exact Option.noConfusion hr
      rw [hget i hi] at hr
      cases hr
      exact ⟨hi, hk1, hk2⟩
    · rintro ⟨hi, hk1, hk2⟩
      exact ⟨_, hget i hi, hk1, hk2⟩
  refine ⟨by simp [chunkRanges], hget, ?_, ?_⟩
  · intro i j k hik hjk
    rw [hchar] at hik hjk
    obtain ⟨hi, hi1, hi2⟩ := hik
    obtain ⟨hj, hj1, hj2⟩ := hjk
    have ei : k / ((s + w - 1) / w) = i :=
      div_eq_of_inRange _ _ _ hc hi1 (le_trans hi2 (min_le_left _ _))
    have ej : k / ((s + w - 1) / w) = j :=
      div_eq_of_inRange _ _ _ hc hj1 (le_trans hj2 (min_le_left _ _))
    omega
  · intro k
    constructor
    · intro hk
      refine ⟨k / ((s + w - 1) / w), _,
        hget _ ?_, ?_, ?_⟩
      · refine (Nat.div_lt_iff_lt_mul hc).mpr ?_
        calc k < s := hk
          _ ≤ (s + w - 1) / w * w := hsc
          _ = w * ((s + w - 1) / w) := Nat.mul_comm _ _
      · exact (self_div_inRange _ k hc).1
      · exact le_min (self_div_inRange _ k hc).2 (by omega)
    · rintro ⟨i, r, hr, hk1, hk2⟩
      have := (hchar i k).mp ⟨r, hr, hk1, hk2⟩
      have h2 := this.2.2
      have := le_trans h2 (min_le_right _ _)
      omega

/-- C5 witness: a 10-byte file with 3 workers — ranges
(0,3), (4,7), (8,9) partition [0,10). -/
theorem chunkRanges_partition_witness :
    (chunkRanges 10 3).length = 3 ∧
    (chunkRanges 10 3)[1]? =
      some (1 * ((10 + 3 - 1) / 3), min (1 * ((10 + 3 - 1) / 3) + (10 + 3 - 1) / 3 - 1) (10 - 1)) ∧
    (9 < 10 ↔ ∃ (i : Nat) (r : Nat × Nat), (chunkRanges 10 3)[i]? = some r ∧ inRange r 9) :=
  ⟨(chunkRanges_partition 10 3 (by decide) (by decide)).1,
   (chunkRanges_partition 10 3 (by decide) (by decide)).2.1 1 (by decide),
   (chunkRanges_partition 10 3 (by decide) (by decide)).2.2.2 9⟩

/-! ### C2 — multi-part renumbering helpers -/

lemma epGet_overwrite (m : EpisodeMap) (k k' : Nat) (v : String) :
    epGet (m.map (fun p => if p.1 == k then (k, v) else p)) k' =
      if k' = k then (if m.any (fun p => p.1 == k) then some v else none)
      else epGet m k' := by
  induction m with
  | nil => simp [epGet]
  | cons hd tl ih =>
      simp only [List.map_cons, List.any_cons, epGet, List.find?_cons] at ih ⊢
      by_cases hhd : hd.1 = k
      · have hb : (hd.1 == k) = true := by simpa using hhd
        have hElem : (if (hd.1 == k) = true then (k, v) else hd) = (k, v) :=
          if_pos hb
        rw [hElem]
        by_cases hkk : k' = k
        · subst hkk
          have hsc : ((k', v).1 == k') = true := by simp
          rw [hsc]
          simp [hb]
        · have hsc : ((k, v).1 == k') = false := by
            simp only [beq_eq_false_iff_ne, ne_eq]
            exact fun he => hkk he.symm
          rw [hsc]
          have hb3 : (hd.1 == k') = false := by
            rw [hhd]
            simp only [beq_eq_false_iff_ne, ne_eq]
            exact fun he => hkk he.symm
          rw [hb3, ih, if_neg hkk, if_neg hkk]
      · have hb : (hd.1 == k) = false := by simpa using hhd
        have hElem : (if (hd.1 == k) = true then (k, v) else hd) = hd :=
          if_neg (by simp [hb])
        rw [hElem]
        by_cases hhd' : hd.1 = k'
        · have hb2 : (hd.1 == k') = true := by simpa using hhd'
          rw [hb2]
          have hkk : ¬ k' = k := fun h => hhd (hhd' ▸ h)
          rw [if_neg hkk]
        · have hb2 : (hd.1 == k') = false := by simpa using hhd'
          rw [hb2, ih]
          simp only [hb, Bool.false_or]

lemma epGet_epSet (m : EpisodeMap) (k k' : Nat) (v : String) :
    epGet (epSet m k v) k' = if k' = k then some v else epGet m k' := by
  unfold epSet
  by_cases hmem : m.any (fun p => p.1 == k)
  · rw [if_pos hmem, epGet_overwrite]
    by_cases hkk : k' = k
    · simp [hkk, hmem]
    · simp [hkk]
  · rw [if_neg hmem]
    have hnone : m.find? (fun p => p.1 == k) = none := by
      rw [List.find?_eq_none]
      intro x hx hpx
      exact hmem (List.any_eq_true.mpr ⟨x, hx, hpx⟩)
    by_cases hkk : k' = k
    · subst hkk
      unfold epGet
      rw [List.find?_append, hnone]
      simp [List.find?_cons]
    · unfold epGet
      rw [List.find?_append]
      have hb : ((k, v).1 == k') = false := by
        simp only [beq_eq_false_iff_ne, ne_eq]
        exact fun he => hkk he.symm
      have h2 : List.find? (fun p => p.1 == k') [(k, v)] = none := by
        rw [List.find?_cons, hb]
        rfl
      rw [h2, Option.or_none, if_neg hkk]

lemma epGet_isSome_of_key_mem (m : EpisodeMap) (k : Nat)
    (h : k ∈ m.map Prod.fst) : ∃ v, epGet m k = some v := by
  induction m with
  | nil => simp at h
  | cons hd tl ih =>
      by_cases hhd : hd.1 = k
      · exact ⟨hd.2, by simp [epGet, List.find?_cons, hhd]⟩
      · have htl : k ∈ tl.map Prod.fst := by
          simp only [List.map_cons, List.mem_cons] at h
          rcases h with h | h
          · exact absurd h.symm hhd
          · exact h
        obtain ⟨v, hv⟩ := ih htl
        refine ⟨v, ?_⟩
        simpa [epGet, List.find?_cons, hhd] using hv

lemma epGet_foldSet_notmem (part : EpisodeMap) (off : Nat) :
    ∀ (ks : List Nat) (acc : EpisodeMap) (k : Nat),
      (∀ n ∈ ks, off + n ≠ k) →
      epGet (ks.foldl
          (fun a n => epSet a (off + n) ((epGet part n).getD "")) acc) k
        = epGet acc k := by
  intro ks
  induction ks with
  | nil => intro acc k _; rfl
  | cons n tl ih =>
      intro acc k h
      simp only [List.foldl_cons]
      rw [ih _ k (fun n' hn' => h n' (List.mem_cons.mpr (Or.inr hn')))]
      rw [epGet_epSet, if_neg]
      intro heq
      exact h n (List.mem_cons.mpr (Or.inl rfl)) heq.symm

lemma epGet_foldSet_mem (part : EpisodeMap) (off : Nat) :
    ∀ (ks : List Nat) (acc : EpisodeMap) (n : Nat),
      ks.Nodup → n ∈ ks →
      epGet (ks.foldl
          (fun m a => epSet m (off + a) ((epGet part a).getD "")) acc) (off + n)
        = some ((epGet part n).getD "") := by
  intro ks
  induction ks with
  | nil => intro acc n _ h; simp at h
  | cons m tl ih =>
      intro acc n hnd hmem
      simp only [List.foldl_cons]
      rcases List.mem_cons.mp hmem with heq | htl
      · subst heq
        have hnotin : n ∉ tl := (List.nodup_cons.mp hnd).1
        rw [epGet_foldSet_notmem part off tl _ (off + n) ?_]
        · rw [epGet_epSet, if_pos rfl]
        · intro n' hn' heq'
          have : n' = n := by omega
          exact hnotin (this ▸ hn')
      · exact ih _ n (List.nodup_cons.mp hnd).2 htl

lemma epSet_entry (m : EpisodeMap) (k : Nat) (v : String) :
    ∀ e ∈ epSet m k v, e ∈ m ∨ e.1 = k := by
  unfold epSet
  by_cases hmem : m.any (fun p => p.1 == k)
  · rw [if_pos hmem]
    intro e he
    rcases List.mem_map.mp he with ⟨p, hp, hfe⟩
    by_cases h : p.1 = k
    · right
      rw [← hfe]
      simp [h]
    · left
      have : ¬ (p.1 == k) = true := by simpa using h
      simp only [Bool.not_eq_true] at this
      rw [← hfe]
      simpa [this] using hp
  · rw [if_neg hmem]
    intro e he
    rcases List.mem_append.mp he with h | h
    · exact Or.inl h
    · right
      simp only [List.mem_singleton] at h
      rw [h]

lemma foldSet_entry_src (part : EpisodeMap) (off : Nat) :
    ∀ (ks : List Nat) (acc : EpisodeMap) (e : Nat × String),
      e ∈ ks.foldl (fun m a => epSet m (off + a) ((epGet part a).getD "")) acc →
      e ∈ acc ∨ ∃ n ∈ ks, e.1 = off + n := by
  intro ks
  induction ks with
  | nil => intro acc e h; exact Or.inl h
  | cons m tl ih =>
      intro acc e h
      simp only [List.foldl_cons] at h
      rcases ih _ e h with hacc | ⟨n, hn, he⟩
      · rcases epSet_entry _ _ _ e hacc with h1 | h1
        · exact Or.inl h1
        · exact Or.inr ⟨m, List.mem_cons.mpr (Or.inl rfl), h1⟩
      · exact Or.inr ⟨n, List.mem_cons.mpr (Or.inr hn), he⟩

lemma listMax_range'1 : ∀ a : Nat, listMax (List.range' 1 a) = a := by
  intro a
  induction a with
  | zero => rfl
  | succ a ih =>
      rw [List.range'_concat]
      unfold listMax at ih ⊢
      rw [List.foldl_append, ih]
      simp [Nat.max_def]
      omega

/-- Facts about a part whose keys are exactly 1..a: the sorted key list is a
nodup permutation of `range' 1 a`, membership is the interval condition, and
its maximum is `a`. -/
lemma sortedKeys_facts (part : EpisodeMap) (a : Nat)
    (hperm : (part.map Prod.fst).Perm (List.range' 1 a)) :
    (sortedKeys part).Nodup ∧
    (∀ n, n ∈ sortedKeys part ↔ 1 ≤ n ∧ n < 1 + a) ∧
    ((sortedKeys part).isEmpty = true ↔ a = 0) ∧
    (listMax (sortedKeys part) = a) := by
  have hp : (sortedKeys part).Perm (List.range' 1 a) :=
    (List.mergeSort_perm _ _).trans hperm
  refine ⟨?_, ?_, ?_, ?_⟩
  · exact hp.nodup_iff.mpr (List.nodup_range' 1 a)
  · intro n
    rw [hp.mem_iff, List.mem_range'_1]
  · constructor
    · intro h
      have hnil : sortedKeys part = [] := List.isEmpty_iff.mp h
      have hp2 : List.Perm ([] : List Nat) (List.range' 1 a) := hnil ▸ hp
      exact List.range'_eq_nil.mp hp2.symm.eq_nil
    · intro h
      subst h
      have hp2 : List.Perm (sortedKeys part) ([] : List Nat) := by
        simpa using hp
      rw [hp2.eq_nil]
      rfl
  · unfold listMax
    rw [hp.foldl_eq 0]
    exact listMax_range'1 a

lemma multiPartGo_untouched :
    ∀ (pcs : List (EpisodeMap × Nat)),
      (∀ pc ∈ pcs, (pc.1.map Prod.fst).Perm (List.range' 1 pc.2)) →
      ∀ (acc : EpisodeMap) (off k : Nat), k ≤ off →
        epGet (multiPartGo (pcs.map (·.1)) acc off) k = epGet acc k := by
  intro pcs
  induction pcs with
  | nil => intro _ acc off k _; rfl
  | cons pc rest ih =>
      intro hkeys acc off k hk
      obtain ⟨hnd, hmem, hempty, hmax⟩ :=
        sortedKeys_facts pc.1 pc.2 (hkeys pc (List.mem_cons.mpr (Or.inl rfl)))
      simp only [List.map_cons, multiPartGo]
      have hoff1 : off ≤ (if (sortedKeys pc.1).isEmpty then off
          else off + listMax (sortedKeys pc.1)) := by
        split
        · exact Nat.le_refl off
        · omega
      rw [ih (fun q hq => hkeys q (List.mem_cons.mpr (Or.inr hq))) _ _ k
        (le_trans hk hoff1)]
      apply epGet_foldSet_notmem
      intro n hn
      have := (hmem n).mp hn
      omega

lemma multiPartGo_spec :
    ∀ (pcs : List (EpisodeMap × Nat)),
      (∀ pc ∈ pcs, (pc.1.map Prod.fst).Perm (List.range' 1 pc.2)) →
      ∀ (acc : EpisodeMap) (off : Nat),
        (∀ e ∈ acc, e.1 ≤ off) →
        ∀ (p : Nat) (hp : p < pcs.length) (n : Nat), 1 ≤ n →
          n ≤ (pcs.get ⟨p, hp⟩).2 →
          epGet (multiPartGo (pcs.map (·.1)) acc off)
              (off + ((pcs.map (·.2)).take p).sum + n) =
            epGet (pcs.get ⟨p, hp⟩).1 n := by
  intro pcs
  induction pcs with
  | nil => intro _ acc off _ p hp; exact absurd hp (by simp)
  | cons pc rest ih =>
      intro hkeys acc off hacc p hp n h1 h2
      obtain ⟨hnd, hmem, hempty, hmax⟩ :=
        sortedKeys_facts pc.1 pc.2 (hkeys pc (List.mem_cons.mpr (Or.inl rfl)))
      simp only [List.map_cons, multiPartGo]
      have hoff1 : (if (sortedKeys pc.1).isEmpty then off
          else off + listMax (sortedKeys pc.1)) = off + pc.2 := by
        by_cases h : (sortedKeys pc.1).isEmpty
        · rw [if_pos h, hempty.mp h]
          omega
        · rw [if_neg h, hmax]
      rw [hoff1]
      have hacc1 : ∀ e ∈ (sortedKeys pc.1).foldl
          (fun m a => epSet m (off + a) ((epGet pc.1 a).getD "")) acc,
          e.1 ≤ off + pc.2 := by
        intro e he
        rcases foldSet_entry_src pc.1 off _ acc e he with h | ⟨m, hm, he1⟩
        · exact le_trans (hacc e h) (Nat.le_add_right _ _)
        · have := (hmem m).mp hm
          omega
      cases p with
      | zero =>
          have h2x : n ≤ pc.2 := h2
          have hn : n ∈ sortedKeys pc.1 := (hmem n).mpr ⟨h1, by omega⟩
          simp only [List.take_zero, List.sum_nil, Nat.add_zero]
          rw [multiPartGo_untouched rest
            (fun q hq => hkeys q (List.mem_cons.mpr (Or.inr hq))) _ _ (off + n)
            (by omega)]
          rw [epGet_foldSet_mem pc.1 off _ acc n hnd hn]
          have hsome : ∃ v, epGet pc.1 n = some v := by
            apply epGet_isSome_of_key_mem
            have hp2 : (sortedKeys pc.1).Perm (pc.1.map Prod.fst) :=
              List.mergeSort_perm _ _
            exact hp2.mem_iff.mp hn
          obtain ⟨v, hv⟩ := hsome
          show some ((epGet pc.1 n).getD "") = epGet pc.1 n
          rw [hv]
          rfl
      | succ p' =>
          have hp' : p' < rest.length := by simpa using hp
          have h2x : n ≤ (rest.get ⟨p', hp'⟩).2 := h2
          have hkey : off + (List.take (p' + 1)
                (pc.2 :: List.map (fun x => x.2) rest)).sum + n =
              (off + pc.2) + (List.take p' (List.map (fun x => x.2) rest)).sum
                + n := by
            rw [List.take_succ_cons, List.sum_cons]
            ring
          rw [hkey]
          exact ih (fun q hq => hkeys q (List.mem_cons.mpr (Or.inr hq)))
            _ (off + pc.2) hacc1 p' hp' n h1 h2x

lemma sum_take_mono (l : List Nat) : ∀ i j, i ≤ j →
    (l.take i).sum ≤ (l.take j).sum := by
  induction l with
  | nil => intro i j _; simp
  | cons a tl ih =>
      intro i j hij
      cases i with
      | zero => simp
      | succ i' =>
          cases j with
          | zero => omega
          | succ j' =>
              simp only [List.take_succ_cons, List.sum_cons]
              have := ih i' j' (by omega)
              omega

lemma prefixSum_add_inj (counts : List Nat) :
    ∀ (p n p' n' : Nat) (hp : p < counts.length) (hp' : p' < counts.length),
      1 ≤ n → n ≤ counts.get ⟨p, hp⟩ → 1 ≤ n' → n' ≤ counts.get ⟨p', hp'⟩ →
      (counts.take p).sum + n = (counts.take p').sum + n' →
      p = p' ∧ n = n' := by
  have key : ∀ (p p' n : Nat) (hp : p < counts.length), p < p' → 1 ≤ n →
      n ≤ counts.get ⟨p, hp⟩ →
      (counts.take p).sum + n ≤ (counts.take p').sum := by
    intro p p' n hp hpp' h1 h2
    have hsucc : (counts.take (p + 1)).sum =
        (counts.take p).sum + counts.get ⟨p, hp⟩ := by
      rw [List.sum_take_succ counts p hp]
      rfl
    have hmono : (counts.take (p + 1)).sum ≤ (counts.take p').sum :=
      sum_take_mono counts (p + 1) p' (by omega)
    omega
  intro p n p' n' hp hp' h1 h2 h1' h2' heq
  rcases Nat.lt_trichotomy p p' with h | h | h
  · have := key p p' n hp h h1 h2
    omega
  · subst h
    exact ⟨rfl, by omega⟩
  · have := key p' p n' hp' h h1' h2'
    omega

/-- C2: for parts whose episode maps have keys exactly 1..aₚ (stated as: the
key multiset of part p is a permutation of `range' 1 aₚ`),
`getEpisodesFromMultiplePages` maps episode n of part p to global episode
number `Σ_{i<p} aᵢ + n` with the part's own URL, and the numbering
`(p, n) ↦ Σ_{i<p} aᵢ + n` is injective over all valid pairs. -/
theorem getEpisodesFromMultiplePages_renumber
    (pcs : List (EpisodeMap × Nat))
    (hkeys : ∀ pc ∈ pcs, (pc.1.map Prod.fst).Perm (List.range' 1 pc.2)) :
    (∀ (p : Nat) (hp : p < pcs.length) (n : Nat), 1 ≤ n →
        n ≤ (pcs.get ⟨p, hp⟩).2 →
        epGet (getEpisodesFromMultiplePages (pcs.map (·.1)))
            (((pcs.map (·.2)).take p).sum + n) =
          epGet (pcs.get ⟨p, hp⟩).1 n) ∧
    (∀ (p n p' n' : Nat) (hp : p < pcs.length) (hp' : p' < pcs.length),
        1 ≤ n → n ≤ (pcs.get ⟨p, hp⟩).2 →
        1 ≤ n' → n' ≤ (pcs.get ⟨p', hp'⟩).2 →
        ((pcs.map (·.2)).take p).sum + n =
          ((pcs.map (·.2)).take p').sum + n' →
        p = p' ∧ n = n') := by
  constructor
  · intro p hp n h1 h2
    have h := multiPartGo_spec pcs hkeys [] 0 (by simp) p hp n h1 h2
    simpa [getEpisodesFromMultiplePages] using h
  · intro p n p' n' hp hp' h1 h2 h1' h2' heq
    have hplen : p < (pcs.map (·.2)).length := by simpa using hp
    have hplen' : p' < (pcs.map (·.2)).length := by simpa using hp'
    refine prefixSum_add_inj (pcs.map (·.2)) p n p' n' hplen hplen' h1 ?_ h1'
      ?_ heq
    · rw [List.get_map]
      exact h2
    · rw [List.get_map]
      exact h2'

/-- C2 witness: two parts with 2 and 1 episodes — global episode 3 is episode
1 of part 2. -/
theorem getEpisodesFromMultiplePages_renumber_witness :
    epGet (getEpisodesFromMultiplePages
        [[(1, "u1"), (2, "u2")], [(1, "v1")]]) 3 =
      epGet [(1, "v1")] 1 := by
  have h := (getEpisodesFromMultiplePages_renumber
    [([(1, "u1"), (2, "u2")], 2), ([(1, "v1")], 1)] (by decide)).1 1
    (by decide) 1 (by decide) (by decide)
  simpa using h

/-! ### C1 — duplicate enqueue while downloading -/

/-- C1: the duplicate check of `addToQueue` scans only the waiting queue, so
a triple whose item has already moved to `activeDownloads` is not rejected.
Trace (`concurrent_downloads` = 1): enqueue (1,2,3) at t=100 — accepted and
immediately started; enqueue the same triple at t=200 — accepted again
instead of rejected, leaving two non-terminal items for (1,2,3). -/
theorem addToQueue_accepts_duplicate_while_downloading :
    addToQueue 100 1 c1Params { queue := [], active := [], cancelled := [] } =
      .ok ("1-2-3-100",
        { queue := [], active := [c1ItemDownloading], cancelled := [] },
        [.itemAdded { c1ItemDownloading with status := .pending },
         .itemStarted c1ItemDownloading]) ∧
    addToQueue 200 1 c1Params
        { queue := [], active := [c1ItemDownloading], cancelled := [] } =
      .ok ("1-2-3-200",
        { queue := [c1ItemPending2], active := [c1ItemDownloading],
          cancelled := [] },
        [.itemAdded c1ItemPending2]) ∧
    nonTerminalCount
      { queue := [c1ItemPending2], active := [c1ItemDownloading],
        cancelled := [] } 1 2 3 = 2 := by
  refine ⟨by rfl, by rfl, by rfl⟩

/-! ### C9 — cancelling a downloading item -/

/-- Every item in the `active` output of the processing loop either was
already active or is a queue item marked `downloading`. -/
lemma processQueueLoop_active_mem (maxConc : Nat) :
    ∀ (q a : List QueueItem) (it : QueueItem),
      it ∈ (processQueueLoop maxConc a q).1 →
      it ∈ a ∨ ∃ it0 ∈ q, it = { it0 with status := ItemStatus.downloading } := by
  intro q
  induction q with
  | nil =>
      intro a it h
      simp only [processQueueLoop] at h
      exact Or.inl h
  | cons hd tl ih =>
      intro a it h
      simp only [processQueueLoop] at h
      by_cases hlen : a.length < maxConc
      · rw [if_pos hlen] at h
        rcases ih (a ++ [{ hd with status := .downloading }]) it h with
          hmem | ⟨it0, hit0, heq⟩
        · rcases List.mem_append.mp hmem with h1 | h2
          · exact Or.inl h1
          · simp only [List.mem_singleton] at h2
            exact Or.inr ⟨hd, by simp, h2⟩
        · exact Or.inr ⟨it0, by simp [hit0], heq⟩
      · rw [if_neg hlen] at h
        exact Or.inl h

/-- C9: cancelling an active (downloading) item returns `true`, emits the
item marked `failed` with exactly the error "Download cancelled by user",
removes the id from the active-downloads set (and it stays absent after the
queue is driven forward), attempts the temp-directory removal whose outcome
`rmOk` does not influence the resulting state, and re-runs `processQueue` on
the state without the item.  `activeDownloads` holds exactly the items in
status `downloading`, so `hfind`/`hstat` say the item is a downloading one;
`hqueue` states id-uniqueness across the two containers. -/
theorem cancelDownload_downloading_item
    (maxConc : Nat) (rmOk : Bool) (id : String) (s : QueueState)
    (it : QueueItem)
    (hfind : s.active.find? (fun q => q.id == id) = some it)
    (hstat : it.status = ItemStatus.downloading)
    (hqueue : ∀ q ∈ s.queue, q.id ≠ id) :
    (cancelDownload maxConc rmOk id s).1 = true ∧
    QueueEvent.itemCancelled
        { it with status := ItemStatus.failed,
                  error := some "Download cancelled by user" }
      ∈ (cancelDownload maxConc rmOk id s).2.2 ∧
    (∀ q ∈ (cancelDownload maxConc rmOk id s).2.1.active, q.id ≠ id) ∧
    QueueEvent.removeTempDir id rmOk ∈ (cancelDownload maxConc rmOk id s).2.2 ∧
    (cancelDownload maxConc true id s).2.1 =
      (cancelDownload maxConc false id s).2.1 ∧
    (cancelDownload maxConc rmOk id s).2.1 =
      (processQueue maxConc
        { s with active := s.active.filter (fun q => q.id != id),
                 cancelled := id :: s.cancelled }).1 := by
  have hmain : ∀ b : Bool, cancelDownload maxConc b id s =
      (true,
       (processQueue maxConc
         { s with active := s.active.filter (fun q => q.id != id),
                  cancelled := id :: s.cancelled }).1,
       .signalCancel id ::
         .itemCancelled { it with status := ItemStatus.failed,
                                  error := some "Download cancelled by user" } ::
         .removeTempDir id b ::
         (processQueue maxConc
           { s with active := s.active.filter (fun q => q.id != id),
                    cancelled := id :: s.cancelled }).2) := by
    intro b
    unfold cancelDownload
    rw [hfind]
  refine ⟨by rw [hmain], by rw [hmain]; simp, ?_, by rw [hmain]; simp,
    by rw [hmain, hmain], by rw [hmain]⟩
  intro q hq
  rw [hmain] at hq
  simp only [processQueue] at hq
  rcases processQueueLoop_active_mem maxConc _ _ q hq with hmem | ⟨it0, hit0, heq⟩
  · have := (List.mem_filter.mp hmem).2
    simpa [bne_iff_ne] using this
  · have hid : q.id = it0.id := by rw [heq]
    rw [hid]
    exact hqueue it0 hit0

/-- C9 witness: cancelling the only active download returns `true`. -/
theorem cancelDownload_downloading_item_witness :
    (cancelDownload 2 true "7-8-9-50"
      { queue := [], active := [c9Item], cancelled := [] }).1 = true :=
  (cancelDownload_downloading_item 2 true "7-8-9-50"
    { queue := [], active := [c9Item], cancelled := [] } c9Item
    (by rfl) (by rfl) (by simp)).1

/-! ### C6 — scheduler interval-to-trigger conversion -/

/-- C6 (counterexample): for an interval of at least a week (N = 10080) the
claim says the trigger fires monthly at 02:00; the code returns the cron
expression `0 0 2 * *`, whose day-of-month field is 2 and whose hour field is
0 — it never fires at hour 2, and does fire at 00:00 on day 2 of the month. -/
theorem minutesToCron_monthly_not_at_0200 :
    minutesToCron 10080 =
      { minute := .exact 0, hour := .exact 0, dayOfMonth := .exact 2,
        month := .any, dayOfWeek := .any } ∧
    (minutesToCron 10080).fires 0 2 1 1 1 = false ∧
    (minutesToCron 10080).fires 0 2 2 1 1 = false ∧
    (minutesToCron 10080).fires 0 0 2 1 1 = true := by
  decide

/-- C6 (amended): semantics of `minutesToCron` under standard cron-field
matching.  For N < 60 the trigger fires at every minute divisible by N; for
60 ≤ N < 24·60 on the hour at every hour divisible by ⌊N/60⌋; for
24·60 ≤ N < 7·24·60 at 00:00 on the days of month congruent to 1 modulo
⌊N/(24·60)⌋; and otherwise at 00:00 on day 2 of every month (cron
`0 0 2 * *`) — not at 02:00. -/
theorem minutesToCron_trigger_semantics (n : Nat) :
    (n < 60 → ∀ mi h dm mo dw : Nat,
      (minutesToCron n).fires mi h dm mo dw = (mi % n == 0)) ∧
    (60 ≤ n → n < 1440 → ∀ mi h dm mo dw : Nat,
      (minutesToCron n).fires mi h dm mo dw = (mi == 0 && h % (n / 60) == 0)) ∧
    (1440 ≤ n → n < 10080 → ∀ mi h dm mo dw : Nat,
      (minutesToCron n).fires mi h dm mo dw =
        (mi == 0 && h == 0 && (dm - 1) % (n / 1440) == 0)) ∧
    (10080 ≤ n → ∀ mi h dm mo dw : Nat,
      (minutesToCron n).fires mi h dm mo dw = (mi == 0 && h == 0 && dm == 2)) := by
  refine ⟨?_, ?_, ?_, ?_⟩
  · intro h1 mi h dm mo dw
    simp [minutesToCron, h1, CronExpr.fires, CronField.fieldFires]
  · intro h1 h2 mi h dm mo dw
    have hx : ¬ n < 60 := by omega
    have hy : n / 60 < 24 := by omega
    simp [minutesToCron, hx, hy, CronExpr.fires, CronField.fieldFires,
      Bool.and_assoc]
  · intro h1 h2 mi h dm mo dw
    have hx : ¬ n < 60 := by omega
    have hy : ¬ n / 60 < 24 := by omega
    have hz : n / 60 / 24 < 7 := by omega
    have hz2 : n / 1440 < 7 := by omega
    have hw : n / 60 / 24 = n / 1440 := by omega
    simp [minutesToCron, hx, hy, hz, hz2, hw, CronExpr.fires,
      CronField.fieldFires, Bool.and_assoc]
  · intro h1 mi h dm mo dw
    have hx : ¬ n < 60 := by omega
    have hy : ¬ n / 60 < 24 := by omega
    have hz : ¬ n / 60 / 24 < 7 := by omega
    simp [minutesToCron, hx, hy, hz, CronExpr.fires, CronField.fieldFires,
      Bool.and_assoc]

/-- C6 witness: concrete instantiation of every branch of the semantics
theorem. -/
theorem minutesToCron_trigger_semantics_witness :
    (minutesToCron 30).fires 30 7 5 5 5 = (30 % 30 == 0) ∧
    (minutesToCron 120).fires 0 6 5 5 5 = (0 == 0 && 6 % (120 / 60) == 0) ∧
    (minutesToCron 2880).fires 0 0 3 5 5 =
      (0 == 0 && 0 == 0 && (3 - 1) % (2880 / 1440) == 0) ∧
    (minutesToCron 20000).fires 0 0 2 5 5 = (0 == 0 && 0 == 0 && 2 == 2) :=
  ⟨(minutesToCron_trigger_semantics 30).1 (by decide) 30 7 5 5 5,
   (minutesToCron_trigger_semantics 120).2.1 (by decide) (by decide) 0 6 5 5 5,
   (minutesToCron_trigger_semantics 2880).2.2.1 (by decide) (by decide) 0 0 3 5 5,
   (minutesToCron_trigger_semantics 20000).2.2.2 (by decide) 0 0 2 5 5⟩

/-! ### C7 — no reentrancy guard on task triggers -/

/-- C7 (counterexample): the task `fetch_wanted` is already `running`
(`begunRuns = 1`); the claim says a second `executeTaskNow` drops the
duplicate, but the call returns `true` and enters `run()` a second time
(`begunRuns = 2`). -/
theorem executeTaskNow_starts_second_instance_while_running :
    (executeTaskNow 5 [("fetch_wanted",
        { status := .running, lastRunAt := some 0, lastError := none,
          begunRuns := 1 })] "fetch_wanted") =
      (true, [("fetch_wanted",
        { status := .running, lastRunAt := some 5, lastError := none,
          begunRuns := 2 })]) := by
  decide

/-- C7 (amended): `executeTaskNow` fires `run()` whenever the task id is
registered, without any check of the current status: for every registered
task — including one whose status is `running` — the trigger returns `true`
and another execution of `BaseTask.run` begins (`begunRuns` increments and
the status is set to `running`).  Duplicate triggers are not dropped. -/
theorem executeTaskNow_always_starts (now : Nat)
    (tasks : List (String × TaskState)) (id : String) (t : TaskState)
    (hmem : (id, t) ∈ tasks) :
    (executeTaskNow now tasks id).1 = true ∧
    (id, runBegin now t) ∈ (executeTaskNow now tasks id).2 ∧
    (runBegin now t).status = .running ∧
    (runBegin now t).begunRuns = t.begunRuns + 1 := by
  have hfind : (tasks.find? (fun p => p.1 == id)).isSome := by
    rw [List.find?_isSome]
    exact ⟨(id, t), hmem, by simp⟩
  refine ⟨?_, ?_, rfl, rfl⟩
  · unfold executeTaskNow
    cases hcase : tasks.find? (fun p => p.1 == id) with
    | none => rw [hcase] at hfind; simp at hfind
    | some p => simp
  · unfold executeTaskNow
    cases hcase : tasks.find? (fun p => p.1 == id) with
    | none => rw [hcase] at hfind; simp at hfind
    | some p =>
        simp only
        have := List.mem_map_of_mem
          (f := fun p : String × TaskState =>
            if p.1 == id then (p.1, runBegin now p.2) else p) hmem
        simpa using this

/-- C7 witness: concrete instantiation with a running task. -/
theorem executeTaskNow_always_starts_witness :
    (executeTaskNow 9 [("update_metadata",
      { status := .running, lastRunAt := some 1, lastError := none,
        begunRuns := 3 })] "update_metadata").1 = true :=
  (executeTaskNow_always_starts 9 _ "update_metadata"
    { status := .running, lastRunAt := some 1, lastError := none,
      begunRuns := 3 } (by simp)).1

/-! ### C8 — retry behaviour on 429 -/

/-- C8: both anime-DB clients keep retrying after a second 429 instead of
surfacing it.  Against the server trace 429(Retry-After 5), 429(Retry-After
7), 200: the GraphQL client issues three requests, sleeping the two
Retry-After delays, and returns the body; the REST client also issues three
requests but sleeps a fixed 10 s each time, ignoring Retry-After.  Per the
claim the second 429 should have been surfaced as an error after exactly one
retry. -/
theorem retry429_second_429_is_retried_not_surfaced :
    makeGraphQLRequest
      [.rateLimited (some 5), .rateLimited (some 7), .success "ok"] =
      (3, [5, 7], .ok "ok") ∧
    malPerformRequest
      [.rateLimited (some 5), .rateLimited (some 7), .success "ok"] =
      (3, [10, 10], .ok "ok") := by
  decide

/-! ### C10 — Season.downloadUrls storage-boundary normalisation -/

/-- C10: the `downloadUrls` column callbacks normalise empty to null:
`prepare` stores NULL for `null` and for the empty array; `consume` yields
`null` for NULL, for the cells `'null'` and `'[]'`, for unparseable JSON,
and for anything that is not a non-empty array; `consume ∘ prepare` is the
identity on non-empty string arrays (under the embedding of strings into
JSON values); and every consumed value is either `null` or a non-empty
array — never the empty array. -/
theorem downloadUrls_column_normalisation :
    prepareDownloadUrls none = none ∧
    prepareDownloadUrls (some []) = none ∧
    consumeDownloadUrls none = none ∧
    consumeDownloadUrls (some (.json .null)) = none ∧
    consumeDownloadUrls (some (.json (.arr []))) = none ∧
    (∀ raw, consumeDownloadUrls (some (.malformed raw)) = none) ∧
    (∀ v : List String, v ≠ [] →
      consumeDownloadUrls (prepareDownloadUrls (some v)) =
        some (v.map JsonVal.str)) ∧
    (∀ c, consumeDownloadUrls c = none ∨
      ∃ l, consumeDownloadUrls c = some l ∧ l ≠ []) := by
  refine ⟨rfl, rfl, rfl, rfl, rfl, fun raw => rfl, ?_, ?_⟩
  · intro v hv
    have hne : v.isEmpty = false := by
      cases v with
      | nil => exact absurd rfl hv
      | cons a l => rfl
    have hlen : (v.map JsonVal.str).length > 0 := by
      cases v with
      | nil => exact absurd rfl hv
      | cons a l => simp
    simp [prepareDownloadUrls, consumeDownloadUrls, hne, hlen, hv]
  · intro c
    match c with
    | none => exact Or.inl rfl
    | some (.malformed raw) => exact Or.inl rfl
    | some (.json .null) => exact Or.inl rfl
    | some (.json (.bool b)) => exact Or.inl rfl
    | some (.json (.num i)) => exact Or.inl rfl
    | some (.json (.str s)) => exact Or.inl rfl
    | some (.json .other) => exact Or.inl rfl
    | some (.json (.arr es)) =>
        cases es with
        | nil => exact Or.inl rfl
        | cons e tl =>
            refine Or.inr ⟨e :: tl, ?_, by simp⟩
            simp [consumeDownloadUrls]

/-- C10 witness: round trip of a concrete two-identifier array. -/
theorem downloadUrls_column_normalisation_witness :
    consumeDownloadUrls
        (prepareDownloadUrls (some ["one-piece.12345", "one-piece-2.677"])) =
      some [JsonVal.str "one-piece.12345", JsonVal.str "one-piece-2.677"] :=
  downloadUrls_column_normalisation.2.2.2.2.2.2.1
    ["one-piece.12345", "one-piece-2.677"] (by simp)

/-! ### C4 — language policy of the season matcher -/

/-- C4: with preference `sub` every surviving match comes from a subbed
result; with `dub` from a dubbed result; and with `dub_fallback_sub` a
subbed result whose title also appears dubbed in the input list is never
kept. -/
theorem parseAnimeWorldResults_language_policy
    (aniDb : Nat → Option AniListRec) (malDb : Nat → Option MalRec)
    (ws we : CalDate) (results : List FilterSearchResult) :
    (∀ m ∈ parseAnimeWorldResults aniDb malDb ws we "sub" results,
        ∃ r ∈ results, r.dub = FilterDub.sub ∧
          matchResult aniDb malDb ws we "sub" results r = some m) ∧
    (∀ m ∈ parseAnimeWorldResults aniDb malDb ws we "dub" results,
        ∃ r ∈ results, r.dub = FilterDub.dub ∧
          matchResult aniDb malDb ws we "dub" results r = some m) ∧
    (∀ r ∈ results, r.dub = FilterDub.sub →
        (∃ q ∈ results, q.title = r.title ∧ q.dub = FilterDub.dub) →
        matchResult aniDb malDb ws we "dub_fallback_sub" results r = none) := by
  refine ⟨?_, ?_, ?_⟩
  · intro m hm
    obtain ⟨r, hr, hmr⟩ := List.mem_filterMap.mp hm
    refine ⟨r, hr, ?_, hmr⟩
    cases hd : r.dub with
    | sub => rfl
    | dub =>
        exfalso
        simp [matchResult, hd] at hmr
  · intro m hm
    obtain ⟨r, hr, hmr⟩ := List.mem_filterMap.mp hm
    refine ⟨r, hr, ?_, hmr⟩
    cases hd : r.dub with
    | dub => rfl
    | sub =>
        exfalso
        simp [matchResult, hd] at hmr
  · rintro r hr hdub ⟨q, hq, hqt, hqd⟩
    have hany : (results.any fun q =>
        q.title == r.title && q.dub == FilterDub.dub) = true :=
      List.any_eq_true.mpr ⟨q, hq, by simp [hqt, hqd]⟩
    simp [matchResult, hdub, hany]

/-- C4 witness: with `dub_fallback_sub`, the subbed `my-show.bb` is dropped
because the dubbed `my-show.aa` exists for the same title. -/
theorem parseAnimeWorldResults_language_policy_witness :
    matchResult (fun _ => none) (fun _ => some c3MalRec)
      ⟨2025, 1, 11⟩ ⟨2025, 4, 5⟩ "dub_fallback_sub"
      [c4DubResult, c4SubResult] c4SubResult = none :=
  (parseAnimeWorldResults_language_policy (fun _ => none)
      (fun _ => some c3MalRec) ⟨2025, 1, 11⟩ ⟨2025, 4, 5⟩
      [c4DubResult, c4SubResult]).2.2 c4SubResult (by simp) rfl
    ⟨c4DubResult, by simp, rfl, rfl⟩

/-! ### C3 — air-date window of the season matcher -/

/-- C3 (counterexample): season window 2024-10-05 … 2025-01-25.  The
surviving result is validated by a realizable MyAnimeList record whose start
and end dates are both 2025-03-07.  The code computes its upper margin as
`windowEnd.plus({months: 1, days: 10})` = 2025-03-07, and January has 31
days, so that margin sits 41 days past the window end: the match survives
although both its start date and its end date are later than
windowEnd + 40 days, contradicting every clause of the claimed 40-day
window. -/
theorem parseAnimeWorldResults_survives_41_days_past_window :
    (parseAnimeWorldResults (fun _ => none) (fun _ => some c3MalRec)
        ⟨2024, 10, 5⟩ ⟨2025, 1, 25⟩ "sub" [c3Result]).map (·.malStartDate) =
      [some ⟨2025, 3, 7⟩] ∧
    c3MalRec.endDateUtc = some ⟨2025, 3, 7⟩ ∧
    daysFromCivil ⟨2025, 1, 25⟩ + 40 < daysFromCivil ⟨2025, 3, 7⟩ := by
  refine ⟨by rfl, rfl, by decide⟩

lemma dateCheck_sound (lowRD highRD : Nat) (startD endD : Option CalDate)
    (airing aired : Bool)
    (h : dateCheck lowRD highRD startD endD airing aired = true) :
    ∃ st, startD = some st ∧ lowRD ≤ daysFromCivil st ∧
      ∀ en, effectiveEnd startD endD aired = some en →
        daysFromCivil en ≤ highRD := by
  cases startD with
  | none => exact absurd h (by simp [dateCheck])
  | some st =>
      simp only [dateCheck] at h
      refine ⟨st, rfl, ?_, ?_⟩
      · split at h
        · exact absurd h (by simp)
        · split at h
          · exact absurd h (by simp)
          · omega
      · intro en hen
        split at h
        · exact absurd h (by simp)
        · split at h
          · exact absurd h (by simp)
          · rw [hen] at h
            simpa using h

/-- C3 (amended): every match surviving `parseAnimeWorldResults` was
validated by an external-DB record whose start date is present and at least
`windowStart` minus one calendar month and 10 days, and whose effective end
date, when present, is at most `windowEnd` plus one calendar month and 10
days.  Records produced by the real anime-DB clients carry an end date
whenever they carry a start date, so the end-date bound also bounds
survivors indirectly — but the margin is a calendar month plus 10 days
(38 to 41 days depending on the month), not 40 days. -/
theorem parseAnimeWorldResults_margin_bounds
    (aniDb : Nat → Option AniListRec) (malDb : Nat → Option MalRec)
    (ws we : CalDate) (pref : String) (results : List FilterSearchResult) :
    ∀ m ∈ parseAnimeWorldResults aniDb malDb ws we pref results,
      ∃ r ∈ results, matchResult aniDb malDb ws we pref results r = some m ∧
        validatedWithinMargins aniDb malDb ws we r m := by
  intro m hm
  obtain ⟨r, hr, hmr⟩ := List.mem_filterMap.mp hm
  refine ⟨r, hr, hmr, ?_⟩
  simp only [matchResult] at hmr
  split at hmr
  · exact absurd hmr (by simp)
  split at hmr
  · exact absurd hmr (by simp)
  split at hmr
  · exact absurd hmr (by simp)
  split at hmr
  · exact absurd hmr (by simp)
  cases hani : r.anilistId.bind aniDb with
  | some a =>
      rw [hani] at hmr
      simp only [Option.isNone_some, Bool.false_and, Bool.false_eq_true,
        if_false] at hmr
      split at hmr
      case isTrue hdc =>
          cases hmr
          obtain ⟨i, hi, ha⟩ := Option.bind_eq_some.mp hani
          obtain ⟨st, hst, hlow, hend⟩ :=
            dateCheck_sound _ _ _ _ _ _ hdc
          exact Or.inl ⟨i, a, hi, ha, by simp [mkSeasonMatch],
            st, hst, hlow, hend⟩
      case isFalse => exact absurd hmr (by simp)
  | none =>
      rw [hani] at hmr
      simp only [Option.isNone_none, Bool.true_and, if_pos] at hmr
      cases hmal : r.malId.bind malDb with
      | some b =>
          rw [hmal] at hmr
          simp only [Option.isNone_some, Bool.false_eq_true, if_false] at hmr
          split at hmr
          case isTrue hdc =>
              cases hmr
              obtain ⟨i, hi, hb⟩ := Option.bind_eq_some.mp hmal
              obtain ⟨st, hst, hlow, hend⟩ :=
                dateCheck_sound _ _ _ _ _ _ hdc
              exact Or.inr ⟨i, b, hi, hb, hani, by simp [mkSeasonMatch],
                st, hst, hlow, hend⟩
          case isFalse => exact absurd hmr (by simp)
      | none =>
          rw [hmal] at hmr
          exact absurd hmr (by simp)

/-- C3 witness: the amended bound instantiated on the counterexample run —
the surviving match was validated within the code's margins (its start date
is above the lower margin; it has no effective end date to bound). -/
theorem parseAnimeWorldResults_margin_bounds_witness :
    ∃ r ∈ [c3Result],
      matchResult (fun _ => none) (fun _ => some c3MalRec)
          ⟨2025, 1, 11⟩ ⟨2025, 4, 5⟩ "sub" [c3Result] r =
        some (mkSeasonMatch c3Result none (some c3MalRec)
          ⟨2025, 1, 11⟩ ⟨2025, 4, 5⟩) ∧
      validatedWithinMargins (fun _ => none) (fun _ => some c3MalRec)
        ⟨2025, 1, 11⟩ ⟨2025, 4, 5⟩ r
        (mkSeasonMatch c3Result none (some c3MalRec)
          ⟨2025, 1, 11⟩ ⟨2025, 4, 5⟩) :=
  parseAnimeWorldResults_margin_bounds (fun _ => none)
    (fun _ => some c3MalRec) ⟨2025, 1, 11⟩ ⟨2025, 4, 5⟩ "sub" [c3Result]
    (mkSeasonMatch c3Result none (some c3MalRec)
      ⟨2025, 1, 11⟩ ⟨2025, 4, 5⟩) (by decide)

end AwDownloader
